import Mathlib

/-!
# Stream server bridge

A shallow embedding of `components/stream_server/stream_server.cpp`
(`StreamServerComponent`): the client registry `clients_`, the shared inbound
buffer `recv_buf_`, the stream adapter `stream_`, the periodic `loop()`
(`cleanup()`, `read()`, `write()`), the connection callbacks installed by the
`Client` constructor and `on_shutdown()`.

Calls into the outside world (`tcp_client->write`, `tcp_client->close`,
`delete tcp_client`, `stream_->write_array`) are recorded, in program order, in
a trace of effects carried by the state; `ESP_LOGD` lines are recorded in a
separate log.
-/

set_option autoImplicit false

namespace StreamServer

/-! ## Data model -/

/-- One byte (`uint8_t` / `char`). -/
abbrev Byte := Fin 256

/-- The connection object behind an `AsyncClient *`: its identity (address) and
the text its `remoteIP().toString()` yields. A null pointer is `none` of
`Option AsyncClient`. -/
structure AsyncClient where
  addr : Nat
  remoteIP : String
deriving DecidableEq, Repr

/-- Model of `StreamServerComponent::Client`: the owned connection, the display
identifier and the `disconnected` flag. -/
structure Client where
  tcp_client : AsyncClient
  identifier : String
  disconnected : Bool
deriving DecidableEq, Repr

/-- Calls the component makes on its collaborators. -/
inductive Effect where
  /-- Call `tcp_client->write(buf, len)` on a connection, with the `len` bytes passed. -/
  | tcpWrite (conn : AsyncClient) (data : List Byte)
  /-- Call `tcp_client->close(force)` on a connection. -/
  | tcpClose (conn : AsyncClient) (force : Bool)
  /-- Statement `delete this->tcp_client`, run by `~Client`. -/
  | tcpDelete (conn : AsyncClient)
  /-- Call `stream_->write_array(recv_buf_)` with the block passed. -/
  | writeArray (data : List Byte)
deriving DecidableEq, Repr

/-- The `ESP_LOGD` lines of the component, by format string. -/
inductive LogMsg where
  /-- Line "New client (p1) connected from %s". -/
  | newClient (identifier : String)
  /-- Line "Client %s disconnected". -/
  | clientDisconnected (identifier : String)
  /-- Line "received data from uart %d bytes". -/
  | uartReceived (len : Nat)
  /-- Line "writing data to uart. len=%lu". -/
  | uartWriting (len : Nat)
  /-- Line "received data from tcp %d bytes". -/
  | tcpReceived (len : Nat)
deriving DecidableEq, Repr

/-- State of a `StreamServerComponent` and of its stream adapter.
`stream_` holds the bytes the adapter has ready: `available()` is its length
and `read_array(buf, len)` takes `len` bytes off its front. -/
structure State where
  clients_ : List Client
  recv_buf_ : List Byte
  stream_ : List Byte
  trace : List Effect
  log : List LogMsg
deriving DecidableEq, Repr

/-! ## Admission and the connection callbacks -/

/-- Constructor `Client::Client(client, recv_buf)`: the member initialisers. -/
def Client.create (client : AsyncClient) : Client :=
  { tcp_client := client, identifier := client.remoteIP, disconnected := false }

/-- The `server_.onClient` callback installed by `setup()`. -/
def onClient (s : State) (tcpClient : Option AsyncClient) : State :=
  match tcpClient with
  | none => s
  | some c =>
    { s with
      clients_ := s.clients_ ++ [Client.create c]
      log := s.log ++ [LogMsg.newClient (Client.create c).identifier] }

/-- Body shared by the three flag callbacks, `this->disconnected = true`, run
on the handle that owns connection `c` (the callback is registered on
`this->tcp_client` and captures `this`). -/
def setDisconnected (s : State) (c : AsyncClient) : State :=
  { s with
    clients_ := s.clients_.map
      (fun h => if h.tcp_client = c then { h with disconnected := true } else h) }

/-- The `onError` callback of the handle owning `c`. -/
def onError (s : State) (c : AsyncClient) (_error : Int) : State :=
  setDisconnected s c

/-- The `onDisconnect` callback of the handle owning `c`. -/
def onDisconnect (s : State) (c : AsyncClient) : State :=
  setDisconnected s c

/-- The `onTimeout` callback of the handle owning `c`. -/
def onTimeout (s : State) (c : AsyncClient) (_time : Nat) : State :=
  setDisconnected s c

/-- The `onData` callback. `data` is the payload pointer (`none` for `nullptr`,
otherwise the bytes stored from that address on) and `len` the length passed;
`recv_buf.insert(recv_buf.end(), buf, buf + len)` copies the first `len` bytes. -/
def onData (s : State) (_c : AsyncClient) (data : Option (List Byte)) (len : Nat) : State :=
  match data with
  | none => s
  | some buf =>
    if len = 0 then s
    else
      { s with
        recv_buf_ := s.recv_buf_ ++ buf.take len
        log := s.log ++ [LogMsg.tcpReceived len] }

/-! ## `std::partition` -/

section Partition

variable {α : Type}

/-- Model of `std::iter_swap(first, last)` on the positions `i` and `j` of `a`. -/
def iter_swap (a : List α) (i j : Nat) : List α :=
  match a[i]?, a[j]? with
  | some x, some y => (a.set i y).set j x
  | _, _ => a

mutual

/-- First inner loop of `std::__partition` for bidirectional iterators
(libstdc++ `bits/stl_algo.h`): advance `first` over elements that satisfy
`pred`; return `first` when it meets `last`, else go on to the second loop
after `--last`. Iterators are positions in `a`; `first == last` is `¬ first < last`
for the ordered pairs the algorithm maintains. -/
def partition_first (pred : α → Bool) (a : List α) (first last : Nat) : List α × Nat :=
  if first < last then
    match a[first]? with
    | some x =>
      if pred x then partition_first pred a (first + 1) last
      else partition_last pred a first (last - 1)
    | none => (a, first)
  else (a, first)
termination_by 2 * (last - first)

/-- Second inner loop of `std::__partition`: move `last` down over elements that
fail `pred`; return `first` when they meet, else `iter_swap(first, last)`,
`++first` and back to the first loop. -/
def partition_last (pred : α → Bool) (a : List α) (first last : Nat) : List α × Nat :=
  if first < last then
    match a[last]? with
    | some y =>
      if !pred y then partition_last pred a first (last - 1)
      else partition_first pred (iter_swap a first last) (first + 1) last
    | none => (a, first)
  else (a, first)
termination_by 2 * (last - first) + 1

end

/-- Model of `std::partition(a.begin(), a.end(), pred)`: the rearranged sequence and the
position of the returned iterator. -/
def partition (pred : α → Bool) (a : List α) : List α × Nat :=
  partition_first pred a 0 a.length

/-- Postcondition of `std::partition` for a result `r` of a scan started at
position `first` of `a`: `r.1` is a rearrangement of `a`, every element before
the returned position `r.2` satisfies `pred`, none from it on does, and the
elements before `first` were left in place. -/
def PartitionPost (pred : α → Bool) (a : List α) (first : Nat) (r : List α × Nat) : Prop :=
  List.Perm r.1 a ∧ first ≤ r.2 ∧ r.2 ≤ a.length ∧
  (∀ i x, i < r.2 → r.1[i]? = some x → pred x = true) ∧
  (∀ i x, r.2 ≤ i → r.1[i]? = some x → pred x = false) ∧
  (∀ i, i < first → r.1[i]? = a[i]?)

end Partition

/-! ## The component's methods -/

/-- Method `StreamServerComponent::cleanup()`: partition the registry on
`!client->disconnected`, log the handles from `last_client` on and erase them
(the erased `unique_ptr`s run `~Client`, which deletes the connection). -/
def cleanup (s : State) : State :=
  let discriminator := fun (client : Client) => !client.disconnected
  let p := partition discriminator s.clients_
  let erased := p.1.drop p.2
  { s with
    clients_ := p.1.take p.2
    log := s.log ++ erased.map (fun client => LogMsg.clientDisconnected client.identifier)
    trace := s.trace ++ erased.map (fun client => Effect.tcpDelete client.tcp_client) }

/-- Method `StreamServerComponent::read()`: while the stream has bytes available, read
a chunk of at most 1024 of them and write it to the connection of every handle
in `clients_`. -/
def read (s : State) : State :=
  if 0 < s.stream_.length then
    let len := min s.stream_.length 1024
    let buf := s.stream_.take len
    read
      { s with
        stream_ := s.stream_.drop len
        log := s.log ++ [LogMsg.uartReceived len]
        trace := s.trace ++ s.clients_.map (fun client => Effect.tcpWrite client.tcp_client buf) }
  else s
termination_by s.stream_.length
decreasing_by
  simp only [List.length_drop]
  omega

/-- Method `StreamServerComponent::write()`: pass a non-empty inbound buffer to the
stream adapter as one block and clear it. -/
def write (s : State) : State :=
  if !s.recv_buf_.isEmpty then
    { s with
      log := s.log ++ [LogMsg.uartWriting s.recv_buf_.length]
      trace := s.trace ++ [Effect.writeArray s.recv_buf_]
      recv_buf_ := [] }
  else s

/-- Method `StreamServerComponent::loop()`: `cleanup()`, `read()`, `write()`. -/
def loop (s : State) : State :=
  write (read (cleanup s))

/-- Method `StreamServerComponent::on_shutdown()`: `close(true)` on the connection
of every handle of the registry. -/
def on_shutdown (s : State) : State :=
  { s with
    trace := s.trace ++ s.clients_.map (fun client => Effect.tcpClose client.tcp_client true) }

/-! ## Runs of the system -/

/-- What can happen to the component: the server and connection callbacks, the
component's methods, and bytes arriving at the stream adapter. -/
inductive Event where
  | onClient (tcpClient : Option AsyncClient)
  | onError (c : AsyncClient) (error : Int)
  | onDisconnect (c : AsyncClient)
  | onTimeout (c : AsyncClient) (time : Nat)
  | onData (c : AsyncClient) (data : Option (List Byte)) (len : Nat)
  | cleanup
  | read
  | write
  | loop
  | on_shutdown
  | uartReceive (bytes : List Byte)
deriving DecidableEq, Repr

/-- One step of the system. -/
def step (s : State) : Event → State
  | .onClient tcpClient => onClient s tcpClient
  | .onError c error => onError s c error
  | .onDisconnect c => onDisconnect s c
  | .onTimeout c time => onTimeout s c time
  | .onData c data len => onData s c data len
  | .cleanup => cleanup s
  | .read => read s
  | .write => write s
  | .loop => loop s
  | .on_shutdown => on_shutdown s
  | .uartReceive bytes => { s with stream_ := s.stream_ ++ bytes }

/-- A run: the events applied in order. -/
def run (s : State) (es : List Event) : State :=
  es.foldl step s

/-- The component after `setup()`: no client, empty buffer. -/
def State.init : State :=
  { clients_ := [], recv_buf_ := [], stream_ := [], trace := [], log := [] }

/-! ## Observations used in the statements -/

/-- The handle is live: its `disconnected` flag is false. -/
def Client.live (h : Client) : Bool := !h.disconnected

/-- The blocks passed to `write` on connection `c`, in call order. -/
def received (c : AsyncClient) (t : List Effect) : List (List Byte) :=
  t.filterMap (fun e =>
    match e with
    | .tcpWrite conn data => if conn = c then some data else none
    | _ => none)

/-- The connections of the registry, in registry order. -/
def connections (s : State) : List AsyncClient :=
  s.clients_.map Client.tcp_client

/-- The connections the admission callback accepted during a run, in order. -/
def accepted (es : List Event) : List AsyncClient :=
  es.filterMap (fun e =>
    match e with
    | .onClient (some c) => some c
    | _ => none)

/-- The bytes an inbound-data event carries: `len` bytes from `data`, nothing
for a null pointer. -/
def payload (data : Option (List Byte)) (len : Nat) : List Byte :=
  match data with
  | none => []
  | some buf => buf.take len

/-- The stream content cut into consecutive blocks of `n` bytes, the last one
possibly shorter. -/
def chunks (n : Nat) (bytes : List Byte) : List (List Byte) :=
  if 0 < n ∧ 0 < bytes.length then
    bytes.take n :: chunks n (bytes.drop n)
  else []
termination_by bytes.length
decreasing_by
  simp only [List.length_drop]
  omega

/-- The `force` arguments of the `close` calls on connection `c`, in call order. -/
def closes (c : AsyncClient) (t : List Effect) : List Bool :=
  t.filterMap (fun e =>
    match e with
    | .tcpClose conn force => if conn = c then some force else none
    | _ => none)

/-- The blocks passed to `write_array` on the stream adapter, in call order. -/
def writeArrays (t : List Effect) : List (List Byte) :=
  t.filterMap (fun e =>
    match e with
    | .writeArray data => some data
    | _ => none)

/-- The payloads of the inbound-data events of a run, concatenated in the order
the events fired. -/
def inbound (es : List Event) : List Byte :=
  (es.map (fun e =>
    match e with
    | .onData _ data len => payload data len
    | _ => [])).flatten

/-- The writes `read()` issues for one chunk: one per handle, in registry order. -/
def broadcast (clients : List Client) (buf : List Byte) : List Effect :=
  clients.map (fun client => Effect.tcpWrite client.tcp_client buf)

/-! ## Sample states -/

def connA : AsyncClient := { addr := 1, remoteIP := "10.0.0.1" }
def connB : AsyncClient := { addr := 2, remoteIP := "10.0.0.2" }
def connC : AsyncClient := { addr := 3, remoteIP := "10.0.0.3" }

/-- The five bytes of "hello". -/
def hello : List Byte := [104, 101, 108, 108, 111]

/-- The handle of `connC` after one of its flag callbacks fired. -/
def flaggedC : Client := { Client.create connC with disconnected := true }

/-- Registry `[A, B]`, both live, the stream holding "hello". -/
def stateAB : State :=
  { clients_ := [Client.create connA, Client.create connB]
    recv_buf_ := [], stream_ := hello, trace := [], log := [] }

/-- Registry `[A, B]`, both live, the stream holding a burst of 2053 bytes. -/
def stateBurst : State :=
  { clients_ := [Client.create connA, Client.create connB]
    recv_buf_ := [], stream_ := List.replicate 2053 7, trace := [], log := [] }

/-- Registry `[A, B, C]` with `C` flagged disconnected, the stream holding "hello". -/
def stateABC : State :=
  { clients_ := [Client.create connA, Client.create connB, flaggedC]
    recv_buf_ := [], stream_ := hello, trace := [], log := [] }

/-- Registry `[C, A, B]` with `C` flagged disconnected. -/
def stateCAB : State :=
  { clients_ := [flaggedC, Client.create connA, Client.create connB]
    recv_buf_ := [], stream_ := [], trace := [], log := [] }

/-- Inbound data: "pi" from `A`, "!" from `B`, an empty event and a null one, then
"ng" from `A` (out of a longer buffer). -/
def pingEvents : List Event :=
  [.onData connA (some [112, 105]) 2, .onData connB (some [33]) 1,
   .onData connB (some [7]) 0, .onData connA none 3,
   .onData connA (some [110, 103, 0, 0]) 2]

/-- Data arrives, a client `D` connects, `A` times out, bytes reach the stream,
`read()` and `on_shutdown()` run. -/
def busyEvents : List Event :=
  [.onData connA (some [1, 2]) 2, .onClient (some { addr := 4, remoteIP := "10.0.0.4" }),
   .onTimeout connA 5000, .uartReceive [9], .read, .on_shutdown]

/-- Clients `C`, `A` and `B` connect in this order, `C` disconnects, `cleanup()` runs. -/
def connectThenDrop : List Event :=
  [.onClient (some connC), .onClient (some connA), .onClient (some connB),
   .onDisconnect connC, .cleanup]

/-! ## `std::partition`: permutation and separation -/

section PartitionLemmas

variable {α : Type}

theorem cons_set_perm (x y : α) : ∀ (t : List α) (j : Nat), t[j]? = some y →
    List.Perm (y :: t.set j x) (x :: t)
  | [], j, h => by simp at h
  | z :: t, 0, h => by
    simp at h
    subst h
    simpa using List.Perm.swap x z t
  | z :: t, j + 1, h => by
    simp at h
    have ih := cons_set_perm x y t j h
    have h1 : List.Perm (y :: z :: t.set j x) (z :: y :: t.set j x) :=
      List.Perm.swap z y (t.set j x)
    have h2 : List.Perm (z :: x :: t) (x :: z :: t) := List.Perm.swap x z t
    simpa using h1.trans ((ih.cons z).trans h2)

theorem set_set_perm : ∀ (a : List α) (i j : Nat) (x y : α), i < j →
    a[i]? = some x → a[j]? = some y → List.Perm ((a.set i y).set j x) a
  | [], i, j, x, y, _, hi, _ => by simp at hi
  | z :: t, 0, 0, x, y, hij, _, _ => by omega
  | z :: t, 0, j + 1, x, y, _, hi, hj => by
    simp at hi hj
    subst hi
    simpa using cons_set_perm z y t j hj
  | z :: t, i + 1, 0, x, y, hij, _, _ => by omega
  | z :: t, i + 1, j + 1, x, y, hij, hi, hj => by
    simp at hi hj
    simpa using (set_set_perm t i j x y (by omega) hi hj).cons z

theorem iter_swap_perm (a : List α) (i j : Nat) (hij : i < j) :
    List.Perm (iter_swap a i j) a := by
  unfold iter_swap
  split
  · next x y hx hy => exact set_set_perm a i j x y hij hx hy
  · exact List.Perm.refl a

theorem length_iter_swap (a : List α) (i j : Nat) : (iter_swap a i j).length = a.length := by
  unfold iter_swap
  split <;> simp

theorem getElem?_iter_swap (a : List α) (i j k : Nat) (hi : i < a.length) (hj : j < a.length) :
    (iter_swap a i j)[k]? = if k = j then a[i]? else if k = i then a[j]? else a[k]? := by
  unfold iter_swap
  rw [List.getElem?_eq_getElem hi, List.getElem?_eq_getElem hj]
  simp only [List.getElem?_set, List.length_set]
  by_cases h1 : k = j
  · subst h1
    simp [hj]
  · by_cases h2 : k = i
    · subst h2
      simp [hi, h1, Ne.symm h1]
    · simp [h1, h2, Ne.symm h1, Ne.symm h2]

theorem partition_first_post (pred : α → Bool) (a : List α) (first last : Nat) :
    first ≤ last → last ≤ a.length →
    (∀ i x, i < first → a[i]? = some x → pred x = true) →
    (∀ i x, last ≤ i → a[i]? = some x → pred x = false) →
    PartitionPost pred a first (partition_first pred a first last) := by
  apply partition_first.induct pred
    (fun a first last => first ≤ last → last ≤ a.length →
      (∀ i x, i < first → a[i]? = some x → pred x = true) →
      (∀ i x, last ≤ i → a[i]? = some x → pred x = false) →
      PartitionPost pred a first (partition_first pred a first last))
    (fun a first last => first ≤ last → last < a.length →
      (∀ i x, i < first → a[i]? = some x → pred x = true) →
      (∀ i x, last < i → a[i]? = some x → pred x = false) →
      (∀ x, a[first]? = some x → pred x = false) →
      PartitionPost pred a first (partition_last pred a first last))
  · -- first loop, `pred(*first)`: `++first`
    intro a first last hlt x hx hp ih _ hlen hpre hsuf
    rw [partition_first, if_pos hlt, hx]
    simp only []
    rw [if_pos hp]
    have := ih (by omega) hlen
      (by
        intro i y hi hy
        by_cases h : i = first
        · subst h
          rw [hx] at hy
          cases hy
          exact hp
        · exact hpre i y (by omega) hy)
      hsuf
    obtain ⟨h1, h2, h3, h4, h5, h6⟩ := this
    exact ⟨h1, by omega, h3, h4, h5, fun i hi => h6 i (by omega)⟩
  · -- first loop, `!pred(*first)`: `--last`, second loop
    intro a first last hlt x hx hp ih _ hlen hpre hsuf
    rw [partition_first, if_pos hlt, hx]
    simp only []
    rw [if_neg hp]
    refine ih (by omega) (by omega) hpre ?_ ?_
    · intro i y hi hy
      exact hsuf i y (by omega) hy
    · intro y hy
      rw [hx] at hy
      cases hy
      simpa using hp
  · -- first loop, position past the end: excluded by `last ≤ a.length`
    intro a first last hlt hnone _ hlen _ _
    rw [List.getElem?_eq_none_iff] at hnone
    omega
  · -- first loop, `first == last`
    intro a first last hlt _ hlen hpre hsuf
    rw [partition_first, if_neg hlt]
    exact ⟨List.Perm.refl a, le_refl _, by omega, hpre,
      fun i x hi hx => hsuf i x (by omega) hx, fun i _ => rfl⟩
  · -- second loop, `!pred(*last)`: `--last`
    intro a first last hlt y hy hp ih _ hlen hpre hsuf hfirst
    rw [partition_last, if_pos hlt, hy]
    simp only []
    rw [if_pos hp]
    refine ih (by omega) (by omega) hpre ?_ hfirst
    intro i z hi hz
    by_cases h : i = last
    · subst h
      rw [hy] at hz
      cases hz
      simpa using hp
    · exact hsuf i z (by omega) hz
  · -- second loop, `pred(*last)`: swap, `++first`, first loop
    intro a first last hlt y hy hp ih _ hlen hpre hsuf hfirst
    rw [partition_last, if_pos hlt, hy]
    simp only []
    rw [if_neg hp]
    have hpy : pred y = true := by simpa using hp
    have hfl : first < a.length := by omega
    have := ih (by omega) (by rw [length_iter_swap]; omega)
      (by
        intro i z hi hz
        rw [getElem?_iter_swap a first last i hfl hlen] at hz
        by_cases h1 : i = last
        · omega
        · by_cases h2 : i = first
          · rw [if_neg h1, if_pos h2, hy] at hz
            cases hz
            exact hpy
          · rw [if_neg h1, if_neg h2] at hz
            exact hpre i z (by omega) hz)
      (by
        intro i z hi hz
        rw [getElem?_iter_swap a first last i hfl hlen] at hz
        by_cases h1 : i = last
        · rw [if_pos h1] at hz
          exact hfirst z hz
        · have h2 : i ≠ first := by omega
          rw [if_neg h1, if_neg h2] at hz
          exact hsuf i z (by omega) hz)
    obtain ⟨h1, h2, h3, h4, h5, h6⟩ := this
    refine ⟨h1.trans (iter_swap_perm a first last hlt), by omega, ?_, h4, h5, ?_⟩
    · rw [length_iter_swap] at h3
      exact h3
    · intro i hi
      rw [h6 i (by omega), getElem?_iter_swap a first last i hfl hlen]
      have h1 : i ≠ last := by omega
      have h2 : i ≠ first := by omega
      rw [if_neg h1, if_neg h2]
  · -- second loop, position past the end: excluded by `last < a.length`
    intro a first last hlt hnone _ hlen _ _ _
    rw [List.getElem?_eq_none_iff] at hnone
    omega
  · -- second loop, `first == last`
    intro a first last hlt hle hlen hpre hsuf hfirst
    rw [partition_last, if_neg hlt]
    have heq : first = last := by omega
    refine ⟨List.Perm.refl a, le_refl _, by omega, hpre, ?_, fun i _ => rfl⟩
    intro i x hi hx
    by_cases h : i = first
    · subst h
      exact hfirst x hx
    · exact hsuf i x (by omega) hx

theorem partition_post (pred : α → Bool) (a : List α) :
    PartitionPost pred a 0 (partition pred a) := by
  unfold partition
  apply partition_first_post pred a 0 a.length (Nat.zero_le _) (le_refl _)
  · intro i x hi
    omega
  · intro i x hi hx
    have := List.getElem?_eq_none_iff.mpr hi
    rw [this] at hx
    cases hx

theorem filter_eq_take_of_split (pred : α → Bool) (l : List α) (k : Nat)
    (hlo : ∀ i x, i < k → l[i]? = some x → pred x = true)
    (hhi : ∀ i x, k ≤ i → l[i]? = some x → pred x = false) :
    l.filter pred = l.take k ∧ l.filter (fun x => !pred x) = l.drop k := by
  have htake : ∀ x ∈ l.take k, pred x = true := by
    intro x hx
    obtain ⟨i, hi⟩ := List.mem_iff_getElem?.mp hx
    rw [List.getElem?_take] at hi
    by_cases h : i < k
    · rw [if_pos h] at hi
      exact hlo i x h hi
    · rw [if_neg h] at hi
      cases hi
  have hdrop : ∀ x ∈ l.drop k, pred x = false := by
    intro x hx
    obtain ⟨i, hi⟩ := List.mem_iff_getElem?.mp hx
    rw [List.getElem?_drop] at hi
    exact hhi (k + i) x (by omega) hi
  constructor
  · conv_lhs => rw [← List.take_append_drop k l]
    rw [List.filter_append, List.filter_eq_self.mpr htake,
      List.filter_eq_nil_iff.mpr (fun x hx => by simp [hdrop x hx]), List.append_nil]
  · conv_lhs => rw [← List.take_append_drop k l]
    rw [List.filter_append, List.filter_eq_nil_iff.mpr (fun x hx => by simp [htake x hx]),
      List.filter_eq_self.mpr (fun x hx => by simp [hdrop x hx]), List.nil_append]

theorem partition_take_perm (pred : α → Bool) (a : List α) :
    List.Perm ((partition pred a).1.take (partition pred a).2) (a.filter pred) := by
  obtain ⟨h1, _, _, h4, h5, _⟩ := partition_post pred a
  rw [← (filter_eq_take_of_split pred _ _ h4 h5).1]
  exact h1.filter pred

theorem partition_drop_perm (pred : α → Bool) (a : List α) :
    List.Perm ((partition pred a).1.drop (partition pred a).2) (a.filter (fun x => !pred x)) := by
  obtain ⟨h1, _, _, h4, h5, _⟩ := partition_post pred a
  rw [← (filter_eq_take_of_split pred _ _ h4 h5).2]
  exact h1.filter _

theorem partition_first_skip (pred : α → Bool) (a : List α) (first last : Nat) :
    ∀ d, first + d ≤ last → last ≤ a.length →
    (∀ i x, first ≤ i → i < first + d → a[i]? = some x → pred x = true) →
    partition_first pred a first last = partition_first pred a (first + d) last
  | 0, _, _, _ => rfl
  | d + 1, hd, hlen, hp => by
    rw [partition_first_skip pred a first last d (by omega) hlen
      (fun i x h1 h2 hx => hp i x h1 (by omega) hx)]
    have hlt : first + d < a.length := by omega
    conv_lhs => rw [partition_first, if_pos (show first + d < last by omega),
      List.getElem?_eq_getElem hlt]
    simp only []
    rw [if_pos (hp (first + d) _ (by omega) (by omega) (List.getElem?_eq_getElem hlt))]
    rfl

theorem partition_take_stable (pred : α → Bool) (a : List α) (j : Nat)
    (hp : ∀ x ∈ a.take j, pred x = true) :
    ((partition pred a).1.take (partition pred a).2).take j = a.take j := by
  -- it is enough to look at `j` within the sequence
  have key : ∀ j, j ≤ a.length → (∀ x ∈ a.take j, pred x = true) →
      ((partition pred a).1.take (partition pred a).2).take j = a.take j := by
    intro j hj hp
    have hpi : ∀ i x, 0 ≤ i → i < 0 + j → a[i]? = some x → pred x = true := by
      intro i x _ hi hx
      apply hp x
      apply List.mem_iff_getElem?.mpr
      refine ⟨i, ?_⟩
      rw [List.getElem?_take, if_pos (by omega), hx]
    have hskip := partition_first_skip pred a 0 a.length j (by omega) (le_refl _) hpi
    have hpost := partition_first_post pred a (0 + j) a.length (by omega) (le_refl _)
      (by
        intro i x hi hx
        exact hpi i x (Nat.zero_le _) hi hx)
      (by
        intro i x hi hx
        rw [List.getElem?_eq_none_iff.mpr hi] at hx
        cases hx)
    rw [← hskip] at hpost
    obtain ⟨_, h2, _, _, _, h6⟩ := hpost
    unfold partition
    apply List.ext_getElem?
    intro i
    simp only [List.getElem?_take]
    by_cases hi : i < j
    · rw [if_pos hi, if_pos hi, if_pos (by omega)]
      exact h6 i (by omega)
    · rw [if_neg hi, if_neg hi]
  by_cases hj : j ≤ a.length
  · exact key j hj hp
  · have h1 : a.take j = a.take a.length := by
      rw [List.take_length, List.take_of_length_le (by omega)]
    have hlen : ((partition pred a).1.take (partition pred a).2).length ≤ a.length := by
      rw [(partition_take_perm pred a).length_eq]
      exact List.length_filter_le _ _
    rw [h1] at hp ⊢
    rw [← key a.length (le_refl _) hp, List.take_of_length_le (by omega),
      List.take_of_length_le hlen]

end PartitionLemmas

/-! ## The read path -/

theorem take_min_length {β : Type} (l : List β) (n : Nat) :
    l.take (min l.length n) = l.take n := by
  by_cases h : n ≤ l.length
  · rw [Nat.min_eq_right h]
  · rw [Nat.min_eq_left (by omega), List.take_length, List.take_of_length_le (by omega)]

theorem drop_min_length {β : Type} (l : List β) (n : Nat) :
    l.drop (min l.length n) = l.drop n := by
  by_cases h : n ≤ l.length
  · rw [Nat.min_eq_right h]
  · rw [Nat.min_eq_left (by omega), List.drop_length, List.drop_of_length_le (by omega)]

theorem chunks_of_empty (n : Nat) (l : List Byte) (h : ¬ 0 < l.length) : chunks n l = [] := by
  rw [chunks, if_neg (fun hc => h hc.2)]

theorem chunks_of_pos (n : Nat) (l : List Byte) (hn : 0 < n) (h : 0 < l.length) :
    chunks n l = l.take n :: chunks n (l.drop n) := by
  rw [chunks, if_pos ⟨hn, h⟩]

theorem flatten_chunks (n : Nat) (hn : 0 < n) : ∀ (k : Nat) (l : List Byte), l.length ≤ k →
    (chunks n l).flatten = l
  | 0, l, hk => by
    have : l = [] := List.length_eq_zero.mp (by omega)
    subst this
    rw [chunks_of_empty n [] (by simp)]
    rfl
  | k + 1, l, hk => by
    by_cases h : 0 < l.length
    · rw [chunks_of_pos n l hn h, List.flatten_cons,
        flatten_chunks n hn k (l.drop n) (by rw [List.length_drop]; omega),
        List.take_append_drop]
    · have : l = [] := List.length_eq_zero.mp (by omega)
      subst this
      rw [chunks_of_empty n [] (by simp)]
      rfl

theorem length_le_of_mem_chunks (n : Nat) (hn : 0 < n) : ∀ (k : Nat) (l : List Byte),
    l.length ≤ k → ∀ w ∈ chunks n l, w.length ≤ n
  | 0, l, hk, w, hw => by
    rw [chunks_of_empty n l (by omega)] at hw
    cases hw
  | k + 1, l, hk, w, hw => by
    by_cases h : 0 < l.length
    · rw [chunks_of_pos n l hn h] at hw
      rcases List.mem_cons.mp hw with rfl | hw
      · rw [List.length_take]
        exact Nat.min_le_left _ _
      · exact length_le_of_mem_chunks n hn k (l.drop n) (by rw [List.length_drop]; omega) w hw
    · rw [chunks_of_empty n l h] at hw
      cases hw

theorem length_eq_of_mem_dropLast_chunks (n : Nat) (hn : 0 < n) : ∀ (k : Nat) (l : List Byte),
    l.length ≤ k → ∀ w ∈ (chunks n l).dropLast, w.length = n
  | 0, l, hk, w, hw => by
    rw [chunks_of_empty n l (by omega)] at hw
    cases hw
  | k + 1, l, hk, w, hw => by
    by_cases h : 0 < l.length
    · rw [chunks_of_pos n l hn h] at hw
      by_cases hrest : 0 < (l.drop n).length
      · rw [chunks_of_pos n (l.drop n) hn hrest, List.dropLast_cons₂] at hw
        rcases List.mem_cons.mp hw with rfl | hw
        · rw [List.length_take]
          rw [List.length_drop] at hrest
          omega
        · rw [← chunks_of_pos n (l.drop n) hn hrest] at hw
          exact length_eq_of_mem_dropLast_chunks n hn k (l.drop n)
            (by rw [List.length_drop]; omega) w hw
      · rw [chunks_of_empty n (l.drop n) hrest] at hw
        cases hw
    · rw [chunks_of_empty n l h] at hw
      cases hw

/-- All of `read()`: the stream is drained and every chunk is written to every
handle of the registry, in registry order. -/
theorem read_eq (s : State) :
    read s =
      { s with
        stream_ := []
        log := s.log ++ (chunks 1024 s.stream_).map (fun w => LogMsg.uartReceived w.length)
        trace := s.trace ++ (chunks 1024 s.stream_).flatMap (broadcast s.clients_) } := by
  induction s using read.induct with
  | case1 x hpos len buf ih =>
    rw [read, if_pos hpos]
    simp only []
    rw [ih]
    rw [chunks_of_pos 1024 x.stream_ (by decide) hpos]
    simp only [len, buf, take_min_length, drop_min_length, List.map_cons, List.flatMap_cons,
      List.append_assoc, List.singleton_append, broadcast, List.length_take]
    rw [Nat.min_comm]
  | case2 x hpos =>
    rw [read, if_neg hpos, chunks_of_empty 1024 x.stream_ hpos]
    have : x.stream_ = [] := List.length_eq_zero.mp (by omega)
    cases x
    simp_all

theorem received_append (c : AsyncClient) (t u : List Effect) :
    received c (t ++ u) = received c t ++ received c u := by
  simp [received]

theorem received_broadcast (c : AsyncClient) (w : List Byte) : ∀ (clients : List Client),
    received c (broadcast clients w) =
      List.replicate ((clients.map Client.tcp_client).count c) w
  | [] => rfl
  | h :: t => by
    have ih := received_broadcast c w t
    simp only [broadcast, received, List.map_cons, List.filterMap_cons] at ih ⊢
    by_cases hc : h.tcp_client = c
    · simp only [hc, if_true, List.count_cons_self, List.replicate_succ, ih]
    · rw [if_neg hc, List.count_cons_of_ne (Ne.symm hc)]
      exact ih

theorem received_flatMap_broadcast (c : AsyncClient) (clients : List Client) :
    ∀ (ws : List (List Byte)),
    received c (ws.flatMap (broadcast clients)) =
      ws.flatMap (fun w => List.replicate ((clients.map Client.tcp_client).count c) w)
  | [] => rfl
  | w :: ws => by
    rw [List.flatMap_cons, List.flatMap_cons, received_append, received_broadcast,
      received_flatMap_broadcast c clients ws]

theorem received_flatMap_broadcast_of_mem (c : AsyncClient) (clients : List Client)
    (hown : (clients.map Client.tcp_client).Nodup) (hc : c ∈ clients.map Client.tcp_client)
    (ws : List (List Byte)) :
    received c (ws.flatMap (broadcast clients)) = ws := by
  rw [received_flatMap_broadcast, List.count_eq_one_of_mem hown hc]
  simp [List.replicate]

theorem received_flatMap_broadcast_of_not_mem (c : AsyncClient) (clients : List Client)
    (hc : c ∉ clients.map Client.tcp_client) (ws : List (List Byte)) :
    received c (ws.flatMap (broadcast clients)) = [] := by
  rw [received_flatMap_broadcast, List.count_eq_zero_of_not_mem hc]
  simp [List.replicate]

theorem read_clients (s : State) : (read s).clients_ = s.clients_ := by
  rw [read_eq]

theorem read_recv_buf (s : State) : (read s).recv_buf_ = s.recv_buf_ := by
  rw [read_eq]

theorem read_stream (s : State) : (read s).stream_ = [] := by
  rw [read_eq]

theorem read_trace (s : State) :
    (read s).trace = s.trace ++ (chunks 1024 s.stream_).flatMap (broadcast s.clients_) := by
  rw [read_eq]

/-! ## The reaper -/

theorem cleanup_clients_perm (s : State) :
    List.Perm (cleanup s).clients_ (s.clients_.filter Client.live) :=
  partition_take_perm (fun client : Client => !client.disconnected) s.clients_

theorem cleanup_erased_perm (s : State) :
    ∃ erased : List Client,
      List.Perm erased (s.clients_.filter Client.disconnected) ∧
      (cleanup s).trace = s.trace ++ erased.map (fun h => Effect.tcpDelete h.tcp_client) ∧
      (cleanup s).log = s.log ++ erased.map (fun h => LogMsg.clientDisconnected h.identifier) := by
  refine ⟨_, ?_, rfl, rfl⟩
  have h := partition_drop_perm (fun client : Client => !client.disconnected) s.clients_
  simpa using h

theorem cleanup_recv_buf (s : State) : (cleanup s).recv_buf_ = s.recv_buf_ := rfl

theorem cleanup_stream (s : State) : (cleanup s).stream_ = s.stream_ := rfl

theorem mem_cleanup_clients (s : State) (h : Client) :
    h ∈ (cleanup s).clients_ ↔ h ∈ s.clients_ ∧ h.disconnected = false := by
  rw [(cleanup_clients_perm s).mem_iff, List.mem_filter]
  simp [Client.live]

theorem cleanup_connections_subperm (s : State) :
    List.Subperm (connections (cleanup s)) (connections s) :=
  ((cleanup_clients_perm s).map Client.tcp_client).subperm.trans
    ((List.filter_sublist s.clients_).map Client.tcp_client).subperm

theorem cleanup_connections_nodup (s : State) (hown : (connections s).Nodup) :
    (connections (cleanup s)).Nodup := by
  have h1 := ((cleanup_clients_perm s).map Client.tcp_client).nodup_iff
  have h2 := ((List.filter_sublist (p := Client.live) s.clients_).map Client.tcp_client)
  exact h1.mpr (List.Nodup.sublist h2 hown)

theorem received_map_tcpDelete (c : AsyncClient) (l : List Client) :
    received c (l.map (fun h => Effect.tcpDelete h.tcp_client)) = [] := by
  induction l with
  | nil => rfl
  | cons h t ih =>
    simp only [received, List.map_cons, List.filterMap_cons] at ih ⊢
    exact ih

theorem received_cleanup (c : AsyncClient) (s : State) :
    received c (cleanup s).trace = received c s.trace := by
  obtain ⟨erased, _, ht, _⟩ := cleanup_erased_perm s
  rw [ht, received_append, received_map_tcpDelete, List.append_nil]

theorem received_write (c : AsyncClient) (s : State) :
    received c (write s).trace = received c s.trace := by
  unfold write
  split
  · simp [received]
  · rfl

/-! ## Claims about the read path and the tick -/

/-- C1: with the stream adapter holding the byte sequence `s.stream_` and every
handle of the registry live (each owning its own connection), `read()` ends
with the stream empty and the registry as it was, and every handle has
received the same sequence of writes: the chunks of the stream content, each of
at most 1024 bytes and all but the last of exactly 1024, whose concatenation is
the stream content. The calls are made chunk by chunk, one per handle in
registry order. -/
theorem read_delivers_stream_in_chunks (s : State)
    (hlive : ∀ h ∈ s.clients_, h.disconnected = false)
    (hown : (connections s).Nodup) :
    (read s).stream_ = [] ∧
    (∀ h ∈ (read s).clients_, h.disconnected = false) ∧
    (chunks 1024 s.stream_).flatten = s.stream_ ∧
    (∀ w ∈ chunks 1024 s.stream_, w.length ≤ 1024) ∧
    (∀ w ∈ (chunks 1024 s.stream_).dropLast, w.length = 1024) ∧
    (∀ h ∈ s.clients_,
      received h.tcp_client (read s).trace =
        received h.tcp_client s.trace ++ chunks 1024 s.stream_) ∧
    (read s).trace =
      s.trace ++ (chunks 1024 s.stream_).flatMap
        (fun w => s.clients_.map (fun h => Effect.tcpWrite h.tcp_client w)) := by
  refine ⟨read_stream s, ?_, flatten_chunks 1024 (by decide) _ _ (le_refl _),
    length_le_of_mem_chunks 1024 (by decide) _ _ (le_refl _),
    length_eq_of_mem_dropLast_chunks 1024 (by decide) _ _ (le_refl _), ?_, read_trace s⟩
  · rw [read_clients]
    exact hlive
  · intro h hh
    rw [read_trace, received_append,
      received_flatMap_broadcast_of_mem h.tcp_client s.clients_ hown
        (List.mem_map_of_mem Client.tcp_client hh)]

/-- Witness for C1: two live clients and a burst of 2053 bytes on the stream:
each client receives blocks of 1024, 1024 and 5 bytes and the stream is empty. -/
theorem read_delivers_stream_in_chunks_witness :
    (∀ h ∈ stateBurst.clients_, h.disconnected = false) ∧
    (connections stateBurst).Nodup ∧
    (read stateBurst).stream_ = [] ∧
    received connA (read stateBurst).trace =
      [List.replicate 1024 7, List.replicate 1024 7, List.replicate 5 7] ∧
    received connB (read stateBurst).trace =
      [List.replicate 1024 7, List.replicate 1024 7, List.replicate 5 7] := by
  have hlive : ∀ h ∈ stateBurst.clients_, h.disconnected = false := by decide
  have hown : (connections stateBurst).Nodup := by decide
  have h := read_delivers_stream_in_chunks stateBurst hlive hown
  have hch : chunks 1024 stateBurst.stream_ =
      [List.replicate 1024 7, List.replicate 1024 7, List.replicate 5 7] := by
    have hs : stateBurst.stream_ = List.replicate 2053 7 := rfl
    have hpos : ∀ n : Nat, 0 < n → 0 < (List.replicate n (7 : Byte)).length := by
      intro n hn
      rw [List.length_replicate]
      exact hn
    rw [hs, chunks_of_pos 1024 _ (by decide) (hpos _ (by decide)), List.take_replicate,
      List.drop_replicate, chunks_of_pos 1024 _ (by decide) (hpos _ (by decide)),
      List.take_replicate, List.drop_replicate,
      chunks_of_pos 1024 _ (by decide) (hpos _ (by decide)), List.take_replicate,
      List.drop_replicate, chunks_of_empty 1024 _ (by rw [List.length_replicate]; decide)]
    rfl
  refine ⟨hlive, hown, h.1, ?_, ?_⟩
  · have := h.2.2.2.2.2.1 (Client.create connA) (List.mem_cons_self _ _)
    rw [hch] at this
    exact this
  · have := h.2.2.2.2.2.1 (Client.create connB)
      (List.mem_cons_of_mem _ (List.mem_cons_self _ _))
    rw [hch] at this
    exact this

/-- C7 (as stated, refuted): in the registry `[A, B, C]` with `C` already flagged
disconnected and the stream holding "hello", `read()` does write to `C`. -/
theorem read_writes_to_flagged_handle :
    ¬ (∀ h ∈ stateABC.clients_, h.disconnected = true →
        received h.tcp_client (read stateABC).trace =
          received h.tcp_client stateABC.trace) := by
  intro hall
  have hC := hall flaggedC (by simp [stateABC]) rfl
  rw [read_trace, received_append] at hC
  simp [stateABC, hello, chunks, broadcast, received, flaggedC, Client.create, connA, connB,
    connC] at hC

/-- C7 (amended): `read()` writes every chunk read from the stream to every
handle of the registry, in registry order, whatever its `disconnected` flag;
these are exactly the live handles when no handle of the registry is flagged,
which is the case right after `cleanup()`. -/
theorem read_writes_to_every_handle (s : State) :
    (read s).trace =
      s.trace ++ (chunks 1024 s.stream_).flatMap
        (fun w => s.clients_.map (fun h => Effect.tcpWrite h.tcp_client w)) ∧
    ((∀ h ∈ s.clients_, h.disconnected = false) →
      s.clients_.filter Client.live = s.clients_) ∧
    (∀ h ∈ (cleanup s).clients_, h.disconnected = false) := by
  refine ⟨read_trace s, ?_, ?_⟩
  · intro hlive
    apply List.filter_eq_self.mpr
    intro h hh
    simp [Client.live, hlive h hh]
  · intro h hh
    exact ((mem_cleanup_clients s h).mp hh).2

/-- C4: one `loop()` (`cleanup()`, `read()`, `write()`, no callback in between)
on a registry whose handles each own their connection issues no write to a
handle that was flagged disconnected at the start of the tick, and writes the
stream content, in chunks, to every handle that was not. -/
theorem loop_writes_to_live_only (s : State) (hown : (connections s).Nodup) :
    (∀ h ∈ s.clients_, h.disconnected = true →
      received h.tcp_client (loop s).trace = received h.tcp_client s.trace) ∧
    (∀ h ∈ s.clients_, h.disconnected = false →
      received h.tcp_client (loop s).trace =
        received h.tcp_client s.trace ++ chunks 1024 s.stream_) ∧
    (chunks 1024 s.stream_).flatten = s.stream_ := by
  refine ⟨?_, ?_, flatten_chunks 1024 (by decide) _ _ (le_refl _)⟩
  · intro h hh hflag
    have hnot : h.tcp_client ∉ (cleanup s).clients_.map Client.tcp_client := by
      intro hmem
      obtain ⟨g, hg, hgc⟩ := List.mem_map.mp hmem
      have hg2 := (mem_cleanup_clients s g).mp hg
      have := List.inj_on_of_nodup_map hown hg2.1 hh hgc
      rw [this] at hg2
      rw [hg2.2] at hflag
      cases hflag
    unfold loop
    rw [received_write, read_trace, received_append,
      received_flatMap_broadcast_of_not_mem _ _ hnot, List.append_nil, received_cleanup]
  · intro h hh hflag
    have hmem : h.tcp_client ∈ (cleanup s).clients_.map Client.tcp_client :=
      List.mem_map_of_mem Client.tcp_client ((mem_cleanup_clients s h).mpr ⟨hh, hflag⟩)
    unfold loop
    rw [received_write, read_trace, received_append,
      received_flatMap_broadcast_of_mem _ _ (cleanup_connections_nodup s hown) hmem,
      received_cleanup, cleanup_stream]

/-- Witness for C4: `A` and `B` live, `C` flagged, the stream holding "hello":
`A` and `B` each receive "hello" and `C` receives nothing. -/
theorem loop_writes_to_live_only_witness :
    (connections stateABC).Nodup ∧
    received connA (loop stateABC).trace = [hello] ∧
    received connB (loop stateABC).trace = [hello] ∧
    received connC (loop stateABC).trace = [] := by
  have hown : (connections stateABC).Nodup := by decide
  have h := loop_writes_to_live_only stateABC hown
  have hch : chunks 1024 stateABC.stream_ = [hello] := by
    simp [stateABC, hello, chunks]
  refine ⟨hown, ?_, ?_, ?_⟩
  · have := h.2.1 (Client.create connA) (by simp [stateABC]) rfl
    rw [hch] at this
    exact this
  · have := h.2.1 (Client.create connB) (by simp [stateABC]) rfl
    rw [hch] at this
    exact this
  · exact h.1 flaggedC (by simp [stateABC]) rfl

/-! ## Claims about the reaper and the registry order -/

/-- C3: after `cleanup()` the registry holds exactly the handles whose
`disconnected` flag was false at the call, each as often as before and none
with the flag set, so its size is the number of such handles; the handles whose
flag was set are erased, and their connections deleted. -/
theorem cleanup_keeps_exactly_live (s : State) :
    List.Perm (cleanup s).clients_ (s.clients_.filter (fun h => !h.disconnected)) ∧
    (∀ h, h ∈ (cleanup s).clients_ ↔ h ∈ s.clients_ ∧ h.disconnected = false) ∧
    (∀ h, (cleanup s).clients_.count h = if h.disconnected then 0 else s.clients_.count h) ∧
    (cleanup s).clients_.length = s.clients_.countP (fun h => !h.disconnected) ∧
    (∃ erased : List Client,
      List.Perm erased (s.clients_.filter (fun h => h.disconnected)) ∧
      (cleanup s).trace = s.trace ++ erased.map (fun h => Effect.tcpDelete h.tcp_client)) := by
  refine ⟨cleanup_clients_perm s, mem_cleanup_clients s, ?_, ?_, ?_⟩
  · intro h
    rw [(cleanup_clients_perm s).count_eq]
    by_cases hd : h.disconnected = true
    · rw [if_pos hd]
      apply List.count_eq_zero_of_not_mem
      intro hmem
      have := (List.mem_filter.mp hmem).2
      simp [Client.live, hd] at this
    · rw [if_neg hd]
      apply List.count_filter
      simp [Client.live, hd]
  · rw [(cleanup_clients_perm s).length_eq, List.countP_eq_length_filter]
    rfl
  · obtain ⟨erased, h1, h2, _⟩ := cleanup_erased_perm s
    exact ⟨erased, h1, h2⟩

theorem connections_setDisconnected (s : State) (c : AsyncClient) :
    connections (setDisconnected s c) = connections s := by
  simp only [connections, setDisconnected, List.map_map]
  apply List.map_congr_left
  intro h _
  simp only [Function.comp]
  split <;> rfl

theorem write_clients (s : State) : (write s).clients_ = s.clients_ := by
  unfold write
  split <;> rfl

theorem onData_clients (s : State) (c : AsyncClient) (data : Option (List Byte)) (len : Nat) :
    (onData s c data len).clients_ = s.clients_ := by
  unfold onData
  split
  · rfl
  · split <;> rfl

theorem connections_step_eq (s : State) (e : Event)
    (hc : e ≠ Event.cleanup) (hl : e ≠ Event.loop) :
    connections (step s e) = connections s ++ accepted [e] := by
  have hrefl : ∀ t : State, connections t = connections s →
      accepted [e] = [] → connections t = connections s ++ accepted [e] := by
    intro t ht he
    rw [ht, he, List.append_nil]
  cases e with
  | onClient tcpClient =>
    cases tcpClient with
    | none => exact hrefl _ rfl rfl
    | some c => simp [step, onClient, accepted, connections, Client.create]
  | onError c error => exact hrefl _ (connections_setDisconnected s c) rfl
  | onDisconnect c => exact hrefl _ (connections_setDisconnected s c) rfl
  | onTimeout c time => exact hrefl _ (connections_setDisconnected s c) rfl
  | onData c data len =>
    exact hrefl _ (congrArg (List.map Client.tcp_client) (onData_clients s c data len)) rfl
  | cleanup => exact absurd rfl hc
  | read => exact hrefl _ (congrArg (List.map Client.tcp_client) (read_clients s)) rfl
  | write => exact hrefl _ (congrArg (List.map Client.tcp_client) (write_clients s)) rfl
  | loop => exact absurd rfl hl
  | on_shutdown => exact hrefl _ rfl rfl
  | uartReceive bytes => exact hrefl _ rfl rfl

theorem connections_step_subperm (s : State) (e : Event) :
    List.Subperm (connections (step s e)) (connections s ++ accepted [e]) := by
  by_cases hc : e = Event.cleanup
  · subst hc
    have : accepted [Event.cleanup] = [] := rfl
    rw [this, List.append_nil]
    exact cleanup_connections_subperm s
  · by_cases hl : e = Event.loop
    · subst hl
      have : accepted [Event.loop] = [] := rfl
      rw [this, List.append_nil]
      have hl : connections (step s .loop) = connections (cleanup s) := by
        simp [step, loop, connections, write_clients, read_clients]
      rw [hl]
      exact cleanup_connections_subperm s
    · rw [connections_step_eq s e hc hl]

theorem accepted_cons (e : Event) (es : List Event) :
    accepted (e :: es) = accepted [e] ++ accepted es := by
  have : e :: es = [e] ++ es := rfl
  rw [this, accepted, List.filterMap_append]
  rfl

theorem run_connections_subperm : ∀ (es : List Event) (s : State),
    List.Subperm (connections (run s es)) (connections s ++ accepted es)
  | [], s => by
    have : accepted [] = [] := rfl
    rw [this, List.append_nil]
    exact List.Subperm.refl _
  | e :: es, s => by
    have ih := run_connections_subperm es (step s e)
    have h1 := (List.subperm_append_right (accepted es)).mpr (connections_step_subperm s e)
    rw [accepted_cons, ← List.append_assoc]
    exact ih.trans h1

theorem run_connections_eq : ∀ (es : List Event) (s : State),
    (∀ e ∈ es, e ≠ Event.cleanup ∧ e ≠ Event.loop) →
    connections (run s es) = connections s ++ accepted es
  | [], s, _ => by
    have : accepted [] = [] := rfl
    rw [this, List.append_nil]
    rfl
  | e :: es, s, h => by
    have he := h e (List.mem_cons_self e es)
    have ih := run_connections_eq es (step s e) (fun x hx => h x (List.mem_cons_of_mem e hx))
    have hrun : run s (e :: es) = run (step s e) es := rfl
    rw [hrun, ih, connections_step_eq s e he.1 he.2, accepted_cons e es, List.append_assoc]

/-- C8 (as stated, refuted): `C`, `A`, `B` connect in this order, `C` disconnects
and `cleanup()` runs; the registry is then `[B, A]`, which is neither the order
of acceptance nor the order the survivors had before the call. -/
theorem cleanup_reorders_survivors :
    ¬ List.Sublist (connections (run State.init connectThenDrop)) (accepted connectThenDrop) ∧
    (cleanup stateCAB).clients_ ≠ stateCAB.clients_.filter Client.live := by
  have h1 : connections (run State.init connectThenDrop) = [connB, connA] := by
    simp [run, connectThenDrop, step, State.init, onClient, onDisconnect, setDisconnected,
      cleanup, partition, partition_first, partition_last, iter_swap, connections,
      Client.create, connA, connB, connC]
  have h2 : accepted connectThenDrop = [connC, connA, connB] := by
    simp [accepted, connectThenDrop]
  have h3 : (cleanup stateCAB).clients_ = [Client.create connB, Client.create connA] := by
    simp [stateCAB, cleanup, partition, partition_first, partition_last, iter_swap,
      flaggedC, Client.create]
  have h4 : stateCAB.clients_.filter Client.live = [Client.create connA, Client.create connB] := by
    simp [stateCAB, flaggedC, Client.create, Client.live]
  rw [h1, h2, h3, h4]
  constructor <;> decide

/-- C8 (amended): the registry holds handles of accepted connections: in every
state reached from `setup()` its connections are, up to order, among the
accepted ones, each at most as often as accepted, and they are the accepted
connections in the order of acceptance as long as neither `cleanup()` nor
`loop()` has run. Admission appends at the end, the callbacks keep the sequence
of handles, and `cleanup()` keeps the surviving handles, each once, the ones
ahead of the first flagged handle in their places, the others in an order that
may differ from the one before. -/
theorem registry_holds_accepted_connections :
    (∀ es, List.Subperm (connections (run State.init es)) (accepted es)) ∧
    (∀ es, (∀ e ∈ es, e ≠ Event.cleanup ∧ e ≠ Event.loop) →
      connections (run State.init es) = accepted es) ∧
    (∀ s c, (onClient s (some c)).clients_ = s.clients_ ++ [Client.create c]) ∧
    (∀ s c error time,
      connections (onError s c error) = connections s ∧
      connections (onDisconnect s c) = connections s ∧
      connections (onTimeout s c time) = connections s) ∧
    (∀ s c data len, (onData s c data len).clients_ = s.clients_) ∧
    (∀ s, List.Perm (cleanup s).clients_ (s.clients_.filter Client.live)) ∧
    (∀ s j, (∀ h ∈ s.clients_.take j, h.disconnected = false) →
      (cleanup s).clients_.take j = s.clients_.take j) := by
  refine ⟨?_, ?_, ?_, ?_, ?_, cleanup_clients_perm, ?_⟩
  · intro es
    simpa [State.init, connections] using run_connections_subperm es State.init
  · intro es hes
    simpa [State.init, connections] using run_connections_eq es State.init hes
  · intro s c
    rfl
  · intro s c error time
    exact ⟨connections_setDisconnected s c, connections_setDisconnected s c,
      connections_setDisconnected s c⟩
  · intro s c data len
    exact onData_clients s c data len
  · intro s j hj
    apply partition_take_stable (fun client : Client => !client.disconnected) s.clients_ j
    intro h hh
    simp [hj h hh]

/-! ## Claims about the write path and the callbacks -/

theorem writeArrays_append (t u : List Effect) :
    writeArrays (t ++ u) = writeArrays t ++ writeArrays u := by
  simp [writeArrays]

theorem writeArrays_broadcast (clients : List Client) (w : List Byte) :
    writeArrays (broadcast clients w) = [] := by
  induction clients with
  | nil => rfl
  | cons h t ih =>
    simp only [broadcast, writeArrays, List.map_cons, List.filterMap_cons] at ih ⊢
    exact ih

theorem writeArrays_flatMap_broadcast (clients : List Client) :
    ∀ ws : List (List Byte), writeArrays (ws.flatMap (broadcast clients)) = []
  | [] => rfl
  | w :: ws => by
    rw [List.flatMap_cons, writeArrays_append, writeArrays_broadcast,
      writeArrays_flatMap_broadcast clients ws]
    rfl

theorem writeArrays_map_tcpDelete (l : List Client) :
    writeArrays (l.map (fun h => Effect.tcpDelete h.tcp_client)) = [] := by
  induction l with
  | nil => rfl
  | cons h t ih =>
    simp only [writeArrays, List.map_cons, List.filterMap_cons] at ih ⊢
    exact ih

theorem writeArrays_map_tcpClose (l : List Client) :
    writeArrays (l.map (fun h => Effect.tcpClose h.tcp_client true)) = [] := by
  induction l with
  | nil => rfl
  | cons h t ih =>
    simp only [writeArrays, List.map_cons, List.filterMap_cons] at ih ⊢
    exact ih

theorem inbound_cons (e : Event) (es : List Event) :
    inbound (e :: es) = inbound [e] ++ inbound es := by
  simp [inbound]

theorem onData_recv_buf (s : State) (c : AsyncClient) (data : Option (List Byte)) (len : Nat) :
    (onData s c data len).recv_buf_ = s.recv_buf_ ++ payload data len := by
  unfold onData payload
  cases data with
  | none => simp
  | some buf =>
    by_cases h : len = 0
    · simp [h]
    · simp [h]

theorem onData_trace (s : State) (c : AsyncClient) (data : Option (List Byte)) (len : Nat) :
    (onData s c data len).trace = s.trace := by
  unfold onData
  split
  · rfl
  · split <;> rfl

theorem onData_stream (s : State) (c : AsyncClient) (data : Option (List Byte)) (len : Nat) :
    (onData s c data len).stream_ = s.stream_ := by
  unfold onData
  split
  · rfl
  · split <;> rfl

/-- A step other than `write()` and `loop()` appends the payload it carries, if
any, to the inbound buffer and calls `write_array` on nothing. -/
theorem step_keeps_inbound (s : State) (e : Event) (hw : e ≠ Event.write) (hl : e ≠ Event.loop) :
    (step s e).recv_buf_ = s.recv_buf_ ++ inbound [e] ∧
    writeArrays (step s e).trace = writeArrays s.trace := by
  cases e with
  | onClient tcpClient =>
    cases tcpClient with
    | none => exact ⟨by simp [step, onClient, inbound], rfl⟩
    | some c => exact ⟨by simp [step, onClient, inbound], rfl⟩
  | onError c error => exact ⟨by simp [step, onError, setDisconnected, inbound], rfl⟩
  | onDisconnect c => exact ⟨by simp [step, onDisconnect, setDisconnected, inbound], rfl⟩
  | onTimeout c time => exact ⟨by simp [step, onTimeout, setDisconnected, inbound], rfl⟩
  | onData c data len =>
    refine ⟨?_, ?_⟩
    · simp [step, inbound, onData_recv_buf]
    · simp [step, onData_trace]
  | cleanup =>
    refine ⟨by simp [step, cleanup_recv_buf, inbound], ?_⟩
    obtain ⟨erased, _, ht, _⟩ := cleanup_erased_perm s
    simp only [step]
    rw [ht, writeArrays_append, writeArrays_map_tcpDelete, List.append_nil]
  | read =>
    refine ⟨by simp [step, read_recv_buf, inbound], ?_⟩
    simp only [step]
    rw [read_trace, writeArrays_append, writeArrays_flatMap_broadcast, List.append_nil]
  | write => exact absurd rfl hw
  | loop => exact absurd rfl hl
  | on_shutdown =>
    refine ⟨by simp [step, on_shutdown, inbound], ?_⟩
    simp only [step, on_shutdown]
    rw [writeArrays_append, writeArrays_map_tcpClose, List.append_nil]
  | uartReceive bytes => exact ⟨by simp [step, inbound], rfl⟩

theorem run_keeps_inbound : ∀ (es : List Event) (s : State),
    (∀ e ∈ es, e ≠ Event.write ∧ e ≠ Event.loop) →
    (run s es).recv_buf_ = s.recv_buf_ ++ inbound es ∧
    writeArrays (run s es).trace = writeArrays s.trace
  | [], s, _ => by simp [run, inbound]
  | e :: es, s, h => by
    have he := h e (List.mem_cons_self e es)
    have hs := step_keeps_inbound s e he.1 he.2
    have ih := run_keeps_inbound es (step s e) (fun x hx => h x (List.mem_cons_of_mem e hx))
    have hrun : run s (e :: es) = run (step s e) es := rfl
    rw [hrun, ih.1, ih.2, hs.1, hs.2, inbound_cons e es, List.append_assoc]
    exact ⟨rfl, rfl⟩

/-- C2: starting right after a flush (inbound buffer empty), whatever events
fire before the next `write()`, that `write()` passes to the stream adapter, in
one `write_array` call, the payloads of the inbound-data events concatenated in
the order they fired, and leaves the buffer empty; no other `write_array` call
is made in between. With the buffer empty `write()` changes nothing, and after
any `write()` the buffer is empty. -/
theorem write_flushes_inbound_once (s : State) (es : List Event)
    (hflushed : s.recv_buf_ = [])
    (hnoflush : ∀ e ∈ es, e ≠ Event.write ∧ e ≠ Event.loop) :
    (run s es).recv_buf_ = inbound es ∧
    writeArrays (run s es).trace = writeArrays s.trace ∧
    (write (run s es)).trace =
      (run s es).trace ++
        (if inbound es = [] then [] else [Effect.writeArray (inbound es)]) ∧
    (write (run s es)).recv_buf_ = [] ∧
    (∀ t : State, t.recv_buf_ = [] → write t = t) ∧
    (∀ t : State, (write t).recv_buf_ = []) := by
  have hrun := run_keeps_inbound es s hnoflush
  rw [hflushed, List.nil_append] at hrun
  have hempty : ∀ t : State, (write t).recv_buf_ = [] := by
    intro t
    unfold write
    by_cases h : t.recv_buf_ = []
    · simp [h]
    · simp [h]
  refine ⟨hrun.1, hrun.2, ?_, hempty _, ?_, hempty⟩
  · unfold write
    rw [hrun.1]
    by_cases h : inbound es = []
    · simp [h]
    · simp [h]
  · intro t ht
    unfold write
    simp [ht]

/-- Witness for C2: client `A` sends "ping" as "pi" and "ng" around a byte of
client `B` and an empty event; the next `write()` passes the five bytes on. -/
theorem write_flushes_inbound_once_witness :
    stateAB.recv_buf_ = [] ∧
    (∀ e ∈ pingEvents, e ≠ Event.write ∧ e ≠ Event.loop) ∧
    (write (run stateAB pingEvents)).trace =
      [Effect.writeArray [112, 105, 33, 110, 103]] ∧
    (write (run stateAB pingEvents)).recv_buf_ = [] := by
  have h := write_flushes_inbound_once stateAB pingEvents rfl (by decide)
  refine ⟨rfl, by decide, ?_, h.2.2.2.1⟩
  have htr : (run stateAB pingEvents).trace = [] := by
    simp [run, pingEvents, step, onData, stateAB]
  have hin : inbound pingEvents = [112, 105, 33, 110, 103] := by
    simp [inbound, pingEvents, payload]
  rw [h.2.2.1, htr, hin]
  rfl

/-- C6: an inbound-data event with a non-null payload and `len > 0` appends the
`len` bytes of the payload, in order, to the inbound buffer; with `len = 0` or a
null payload the state stays as it is. Either way the registry with its flags,
the stream and the calls made so far are unchanged. -/
theorem onData_appends_payload (s : State) (c : AsyncClient) (data : Option (List Byte))
    (len : Nat) :
    (∀ p, data = some p → 0 < len →
      (onData s c data len).recv_buf_ = s.recv_buf_ ++ p.take len) ∧
    (∀ p, data = some p → p.length = len →
      (onData s c data len).recv_buf_ = s.recv_buf_ ++ p) ∧
    (len = 0 ∨ data = none → onData s c data len = s) ∧
    (onData s c data len).clients_ = s.clients_ ∧
    (onData s c data len).stream_ = s.stream_ ∧
    (onData s c data len).trace = s.trace := by
  refine ⟨?_, ?_, ?_, onData_clients s c data len, onData_stream s c data len,
    onData_trace s c data len⟩
  · intro p hp _
    rw [onData_recv_buf, hp]
    rfl
  · intro p hp hlen
    rw [onData_recv_buf, hp, ← hlen]
    simp [payload]
  · intro h
    unfold onData
    rcases h with h | h
    · cases data with
      | none => rfl
      | some buf => simp [h]
    · rw [h]

/-- C9: the admission callback with a null connection changes nothing; with a
connection it appends one handle owning that connection, with
`disconnected = false`, at the end of the registry and leaves the handles
already there, the inbound buffer, the stream and the calls made so far
unchanged. -/
theorem onClient_appends_one_handle (s : State) :
    onClient s none = s ∧
    (∀ c : AsyncClient,
      (onClient s (some c)).clients_ =
        s.clients_ ++ [{ tcp_client := c, identifier := c.remoteIP, disconnected := false }] ∧
      (onClient s (some c)).recv_buf_ = s.recv_buf_ ∧
      (onClient s (some c)).stream_ = s.stream_ ∧
      (onClient s (some c)).trace = s.trace) :=
  ⟨rfl, fun _ => ⟨rfl, rfl, rfl, rfl⟩⟩

/-! ## Claims about the `disconnected` flag and shutdown -/

theorem mem_setDisconnected (s : State) (c : AsyncClient) (h : Client)
    (hh : h ∈ (setDisconnected s c).clients_) :
    ∃ g ∈ s.clients_, g.tcp_client = h.tcp_client ∧
      (g.disconnected = true ∨ g.tcp_client = c → h.disconnected = true) := by
  obtain ⟨g, hg, rfl⟩ := List.mem_map.mp hh
  refine ⟨g, hg, ?_, ?_⟩
  · split <;> rfl
  · intro hor
    by_cases hc : g.tcp_client = c
    · rw [if_pos hc]
    · rw [if_neg hc]
      rcases hor with h1 | h1
      · exact h1
      · exact absurd h1 hc

theorem setDisconnected_idem (s : State) (c : AsyncClient) :
    setDisconnected (setDisconnected s c) c = setDisconnected s c := by
  simp only [setDisconnected, List.map_map]
  congr 1
  apply List.map_congr_left
  intro h _
  simp only [Function.comp]
  by_cases hc : h.tcp_client = c
  · simp [hc]
  · simp [hc]

/-- A step that does not admit connection `c` keeps every handle of `c` flagged. -/
theorem step_keeps_flag (s : State) (e : Event) (c : AsyncClient)
    (hflag : ∀ h ∈ s.clients_, h.tcp_client = c → h.disconnected = true)
    (he : e ≠ Event.onClient (some c)) :
    ∀ h ∈ (step s e).clients_, h.tcp_client = c → h.disconnected = true := by
  have hcb : ∀ c', ∀ h ∈ (setDisconnected s c').clients_, h.tcp_client = c →
      h.disconnected = true := by
    intro c' h hh hc
    obtain ⟨g, hg, hgc, himp⟩ := mem_setDisconnected s c' h hh
    exact himp (Or.inl (hflag g hg (hgc.trans hc)))
  cases e with
  | onClient tcpClient =>
    cases tcpClient with
    | none => exact hflag
    | some c' =>
      intro h hh hc
      simp only [step, onClient, List.mem_append, List.mem_singleton] at hh
      rcases hh with hh | hh
      · exact hflag h hh hc
      · subst hh
        exact absurd (congrArg (fun x => Event.onClient (some x)) hc) he
  | onError c' error => exact hcb c'
  | onDisconnect c' => exact hcb c'
  | onTimeout c' time => exact hcb c'
  | onData c' data len =>
    intro h hh
    simp only [step, onData_clients] at hh
    exact hflag h hh
  | cleanup =>
    intro h hh
    exact hflag h ((mem_cleanup_clients s h).mp hh).1
  | read =>
    intro h hh
    simp only [step, read_clients] at hh
    exact hflag h hh
  | write =>
    intro h hh
    simp only [step, write_clients] at hh
    exact hflag h hh
  | loop =>
    intro h hh
    simp only [step, loop, write_clients, read_clients] at hh
    exact hflag h ((mem_cleanup_clients s h).mp hh).1
  | on_shutdown => exact hflag
  | uartReceive bytes => exact hflag

theorem run_keeps_flag (c : AsyncClient) : ∀ (es : List Event) (s : State),
    (∀ h ∈ s.clients_, h.tcp_client = c → h.disconnected = true) →
    c ∉ accepted es →
    ∀ h ∈ (run s es).clients_, h.tcp_client = c → h.disconnected = true
  | [], _, hflag, _ => hflag
  | e :: es, s, hflag, hacc => by
    rw [accepted_cons, List.mem_append, not_or] at hacc
    have he : e ≠ Event.onClient (some c) := by
      intro heq
      apply hacc.1
      rw [heq]
      simp [accepted]
    exact run_keeps_flag c es (step s e) (step_keeps_flag s e c hflag he) hacc.2

theorem run_flag_events (c : AsyncClient) : ∀ (es : List Event) (s : State),
    (∀ e ∈ es, (∃ error, e = Event.onError c error) ∨ e = Event.onDisconnect c ∨
      (∃ time, e = Event.onTimeout c time)) →
    run (setDisconnected s c) es = setDisconnected s c
  | [], _, _ => rfl
  | e :: es, s, h => by
    have hstep : step (setDisconnected s c) e = setDisconnected s c := by
      rcases h e (List.mem_cons_self e es) with ⟨error, rfl⟩ | rfl | ⟨time, rfl⟩
      · exact setDisconnected_idem s c
      · exact setDisconnected_idem s c
      · exact setDisconnected_idem s c
    have hrun : run (setDisconnected s c) (e :: es) =
        run (step (setDisconnected s c) e) es := rfl
    rw [hrun, hstep]
    exact run_flag_events c es s (fun x hx => h x (List.mem_cons_of_mem e hx))

/-- C5: a handle is created with `disconnected = false`; once the handle of a
connection is flagged it stays flagged through every run of the system
(admissions of other connections, callbacks, `cleanup()`, `read()`, `write()`,
`loop()`, `on_shutdown()`) for as long as it is in the registry; and any
non-empty sequence of error, disconnect and timeout callbacks on one connection
leaves the same state as a single one of them. -/
theorem disconnected_is_monotonic :
    (∀ c, (Client.create c).disconnected = false) ∧
    (∀ s c, (onClient s (some c)).clients_ = s.clients_ ++ [Client.create c]) ∧
    (∀ s es c, (∀ h ∈ s.clients_, h.tcp_client = c → h.disconnected = true) →
      c ∉ accepted es →
      ∀ h ∈ (run s es).clients_, h.tcp_client = c → h.disconnected = true) ∧
    (∀ s c error time,
      onError s c error = onDisconnect s c ∧ onTimeout s c time = onDisconnect s c) ∧
    (∀ s c es, es ≠ [] →
      (∀ e ∈ es, (∃ error, e = Event.onError c error) ∨ e = Event.onDisconnect c ∨
        (∃ time, e = Event.onTimeout c time)) →
      run s es = onDisconnect s c) := by
  refine ⟨fun _ => rfl, fun _ _ => rfl, ?_, fun _ _ _ _ => ⟨rfl, rfl⟩, ?_⟩
  · intro s es c hflag hacc
    exact run_keeps_flag c es s hflag hacc
  · intro s c es hne hall
    cases es with
    | nil => exact absurd rfl hne
    | cons e es =>
      have hstep : step s e = setDisconnected s c := by
        rcases hall e (List.mem_cons_self e es) with ⟨error, rfl⟩ | rfl | ⟨time, rfl⟩ <;> rfl
      have hrun : run s (e :: es) = run (step s e) es := rfl
      rw [hrun, hstep]
      exact run_flag_events c es s (fun x hx => hall x (List.mem_cons_of_mem e hx))

/-- Witness for C5: in the registry `[A, B, C]` with `C` flagged, data arrives, a
client `D` connects, `A` times out, `read()` and `on_shutdown()` run: `C` is
still in the registry and still flagged; and error, timeout, disconnect on `A`
leave what one disconnect leaves. -/
theorem disconnected_is_monotonic_witness :
    flaggedC ∈ (run stateABC busyEvents).clients_ ∧
    (∀ h ∈ (run stateABC busyEvents).clients_, h.tcp_client = connC →
      h.disconnected = true) ∧
    run stateABC [.onError connA (-13), .onTimeout connA 5000, .onDisconnect connA] =
      onDisconnect stateABC connA := by
  refine ⟨?_, ?_, ?_⟩
  · simp [run, busyEvents, step, stateABC, onData, onClient, onTimeout, setDisconnected,
      read_clients, on_shutdown, flaggedC, Client.create, connA, connB, connC]
  · apply disconnected_is_monotonic.2.2.1 stateABC busyEvents connC
    · decide
    · decide
  · apply disconnected_is_monotonic.2.2.2.2 stateABC connA
    · simp
    · intro e he
      simp only [List.mem_cons, List.mem_singleton, List.not_mem_nil, or_false] at he
      rcases he with rfl | rfl | rfl
      · exact Or.inl ⟨_, rfl⟩
      · exact Or.inr (Or.inr ⟨_, rfl⟩)
      · exact Or.inr (Or.inl rfl)

theorem closes_append (c : AsyncClient) (t u : List Effect) :
    closes c (t ++ u) = closes c t ++ closes c u := by
  simp [closes]

theorem closes_map_tcpClose (c : AsyncClient) : ∀ (clients : List Client),
    closes c (clients.map (fun h => Effect.tcpClose h.tcp_client true)) =
      List.replicate ((clients.map Client.tcp_client).count c) true
  | [] => rfl
  | h :: t => by
    have ih := closes_map_tcpClose c t
    simp only [closes, List.map_cons, List.filterMap_cons] at ih ⊢
    by_cases hc : h.tcp_client = c
    · simp only [hc, if_true, List.count_cons_self, List.replicate_succ, ih]
    · rw [if_neg hc, List.count_cons_of_ne (Ne.symm hc)]
      exact ih

/-- C10: `on_shutdown()` calls `close(true)` once on the connection of every
handle of the registry (each handle owning its connection) and on no other
connection, and leaves the registry with its flags, the inbound buffer and the
stream unchanged; a disconnect callback firing afterwards makes no call at all
(no close, no delete) and leaves the sequence of handles and the inbound buffer
as they were. -/
theorem on_shutdown_closes_every_connection (s : State) (hown : (connections s).Nodup) :
    (on_shutdown s).trace =
      s.trace ++ s.clients_.map (fun h => Effect.tcpClose h.tcp_client true) ∧
    (∀ h ∈ s.clients_,
      closes h.tcp_client (on_shutdown s).trace = closes h.tcp_client s.trace ++ [true]) ∧
    (∀ c, c ∉ connections s → closes c (on_shutdown s).trace = closes c s.trace) ∧
    (on_shutdown s).clients_ = s.clients_ ∧
    (on_shutdown s).recv_buf_ = s.recv_buf_ ∧
    (on_shutdown s).stream_ = s.stream_ ∧
    (∀ c,
      (onDisconnect (on_shutdown s) c).trace = (on_shutdown s).trace ∧
      connections (onDisconnect (on_shutdown s) c) = connections s ∧
      (onDisconnect (on_shutdown s) c).clients_.length = s.clients_.length ∧
      (onDisconnect (on_shutdown s) c).recv_buf_ = s.recv_buf_) := by
  refine ⟨rfl, ?_, ?_, rfl, rfl, rfl, ?_⟩
  · intro h hh
    have hmem : h.tcp_client ∈ s.clients_.map Client.tcp_client :=
      List.mem_map_of_mem Client.tcp_client hh
    have hown2 : (s.clients_.map Client.tcp_client).Nodup := hown
    simp only [on_shutdown]
    rw [closes_append, closes_map_tcpClose, List.count_eq_one_of_mem hown2 hmem]
    rfl
  · intro c hc
    have hc2 : c ∉ s.clients_.map Client.tcp_client := hc
    simp only [on_shutdown]
    rw [closes_append, closes_map_tcpClose, List.count_eq_zero_of_not_mem hc2]
    simp
  · intro c
    refine ⟨rfl, connections_setDisconnected (on_shutdown s) c, ?_, rfl⟩
    simp [onDisconnect, setDisconnected, on_shutdown]

/-- Witness for C10: forced shutdown with the two live clients `A` and `B`: each
connection is closed once, and a later disconnect for `A` or `B` makes no
further call. -/
theorem on_shutdown_closes_every_connection_witness :
    (connections stateAB).Nodup ∧
    closes connA (on_shutdown stateAB).trace = [true] ∧
    closes connB (on_shutdown stateAB).trace = [true] ∧
    closes connC (on_shutdown stateAB).trace = [] ∧
    (onDisconnect (on_shutdown stateAB) connA).trace = (on_shutdown stateAB).trace ∧
    (onDisconnect (on_shutdown stateAB) connB).trace = (on_shutdown stateAB).trace := by
  have hown : (connections stateAB).Nodup := by decide
  have h := on_shutdown_closes_every_connection stateAB hown
  refine ⟨hown, ?_, ?_, ?_, (h.2.2.2.2.2.2 connA).1, (h.2.2.2.2.2.2 connB).1⟩
  · exact h.2.1 (Client.create connA) (by simp [stateAB])
  · exact h.2.1 (Client.create connB) (by simp [stateAB])
  · exact h.2.2.1 connC (by decide)

end StreamServer
